import Mathlib

/-!
Shallow embedding of the fetch-and-cache subsystem of the research-workflow
repository (src/fetch_and_clean.py) and of the media downloader
(src/scripts/media_handler.py), with theorems settling the frozen claims.

Modelling conventions:
* Python strings are Lean `String`s; slicing `s[:n]` is `List.take` on `s.data`
  (both operate on code points).
* Machine-external facilities (the `ipaddress` classifier, `socket.getaddrinfo`,
  the HTTP clients, `hashlib.sha256`, `datetime` parsing) are oracles carried in
  a `FetchEnv` record; the repository code under verification is translated
  literally on top of them.
* Python exceptions are an explicit `PyErr` type; `except ValueError` clauses
  match on the `valueError` constructor, `except Exception` on everything.
* Wall-clock time (`time.monotonic`) is an integer-valued clock (one unit =
  0.1 s; the float arithmetic of the source uses only addition, subtraction
  and comparison, which the integer model reproduces) threaded through a
  `NetState`; every outbound HTTP request and every `time.sleep` is recorded
  as a timestamped event, so temporal claims are statements about the trace.
-/

namespace ResearchWorkflow

/-- Classification flags of one IP address, as computed by Python
`ipaddress.ip_address(...)` attribute checks. -/
structure IPInfo where
  is_private : Bool
  is_loopback : Bool
  is_reserved : Bool
  is_link_local : Bool
deriving DecidableEq, Repr

/-- `addr.is_private or addr.is_loopback or addr.is_reserved or addr.is_link_local` —
the range test used at both raise sites of `validate_url`. -/
def IPInfo.blockedRange (a : IPInfo) : Bool :=
  a.is_private || a.is_loopback || a.is_reserved || a.is_link_local

/-- A URL together with its `urllib.parse.urlparse` projections used by the code:
`scheme`, `hostname` (already lowercased by `urlparse`; `""` models `None`), and
the raw URL string. -/
structure Url where
  scheme : String
  hostname : String
  raw : String
deriving DecidableEq, Repr

/-- The four `raise ValueError` sites of `validate_url` in fetch_and_clean.py,
as a typed rejection. All four messages begin with the word Blocked. -/
inductive ValidationError where
  | blockedScheme (scheme : String) (url : String)
  | blockedHostname (host : String) (url : String)
  | blockedIP (host : String) (url : String)
  | blockedResolved (host : String) (url : String)
deriving DecidableEq, Repr

/-- Message carried by the `ValueError`, as built by the f-strings of the source
(quote marks around interpolated values omitted). -/
def ValidationError.message : ValidationError → String
  | .blockedScheme sc url => "Blocked URL scheme " ++ sc ++ ": " ++ url
  | .blockedHostname h url => "Blocked hostname " ++ h ++ ": " ++ url
  | .blockedIP h url => "Blocked private/reserved IP " ++ h ++ ": " ++ url
  | .blockedResolved h url => "Blocked: " ++ h ++ " resolves to private IP: " ++ url

/-- Python exception classes raised or caught by fetch_and_clean.py /
media_handler.py. `except ValueError` catches exactly `valueError`;
`except Exception` catches every constructor. -/
inductive PyErr where
  | valueError (msg : String)
  | httpError (msg : String)
  | runtimeError (msg : String)
  | keyError (k : String)
deriving DecidableEq, Repr

/-- `str(exc)`. -/
def PyErr.str : PyErr → String
  | .valueError m => m
  | .httpError m => m
  | .runtimeError m => m
  | .keyError k => k

/-- `validate_url` raises its rejections as `ValueError`. -/
def ValidationError.toPyErr (e : ValidationError) : PyErr := .valueError e.message

/-- Snapshot descriptor `closest` returned by the Wayback availability API:
`closest.get("status")` and `closest["url"]` (absent key modelled by `none`). -/
structure Closest where
  status : Option String
  url : Option Url
deriving DecidableEq, Repr

/-- Body of the availability response:
`data.get("archived_snapshots", {}).get("closest", {})`, with the empty/missing
descriptor modelled by `none`. -/
structure WaybackResp where
  closest : Option Closest
deriving DecidableEq, Repr

/-- Oracles for everything outside the repository code: IP parsing and
classification, DNS, the two HTTP services (response or the message of the
raised requests exception) with the wall-clock duration of each call,
SHA-256, and timestamp handling (`parseTime` maps an ISO string to epoch
seconds, `wallNow`/`nowStr` are `datetime.now(timezone.utc)` and its
isoformat, held fixed over one batch). -/
structure FetchEnv where
  parseIP : String → Option IPInfo
  dns : String → Option (List IPInfo)
  sha256 : String → String
  jina : Url → Except String String
  jinaDur : Url → Int
  wayback : Url → Except String WaybackResp
  waybackDur : Url → Int
  parseTime : String → Option Int
  wallNow : Int
  nowStr : String

/-- `_BLOCKED_HOSTNAMES = {"localhost", "localhost.localdomain"}`. -/
def _BLOCKED_HOSTNAMES : List String := ["localhost", "localhost.localdomain"]

/-- `validate_url` of fetch_and_clean.py. Control flow of the Python original:
the `ip_address(hostname)` call either succeeds (`parseIP = some`) or raises a
does-not-appear-to-be-an-address `ValueError` (`parseIP = none`); the
`"Blocked" in str(orig)` guard re-raises exactly the blocked-IP rejection
(hostnames are lowercased by `urlparse`, so the parse-failure message never
contains the capitalised word Blocked); the `except socket.gaierror: pass`
arm is `dns = none`; the loop over `getaddrinfo` results raises on the first
blocked address. -/
def validate_url (env : FetchEnv) (u : Url) : Except ValidationError Unit :=
  if u.scheme ≠ "http" ∧ u.scheme ≠ "https" then
    .error (.blockedScheme u.scheme u.raw)
  else if u.hostname ∈ _BLOCKED_HOSTNAMES then
    .error (.blockedHostname u.hostname u.raw)
  else
    match env.parseIP u.hostname with
    | some addr =>
      if addr.blockedRange then .error (.blockedIP u.hostname u.raw)
      else .ok ()
    | none =>
      match env.dns u.hostname with
      | none => .ok ()
      | some addrs =>
        if addrs.any IPInfo.blockedRange then
          .error (.blockedResolved u.hostname u.raw)
        else .ok ()

/-- `url_cache_key`: SHA-256 hex digest of the raw URL string. -/
def url_cache_key (env : FetchEnv) (url : String) : String := env.sha256 url

/-- `url.rstrip("/")`: remove every trailing slash. -/
def rstripSlash (s : String) : String := ⟨(s.data.reverse.dropWhile (· = '/')).reverse⟩

/-- `normalize_url`: lowercase, strip trailing slash (dedup identity only). -/
def normalize_url (url : String) : String := (rstripSlash url).toLower

/-- Loop of `deduplicate_urls` with the `seen` set accumulated. -/
def dedup_go : List Url → List String → List Url
  | [], _ => []
  | u :: rest, seen =>
    if normalize_url u.raw ∈ seen then dedup_go rest seen
    else u :: dedup_go rest (normalize_url u.raw :: seen)

/-- `deduplicate_urls`: drop later items whose normalized URL was seen,
preserving order. -/
def deduplicate_urls (urls : List Url) : List Url := dedup_go urls []

/-- One persisted cache record: the JSON object fields read or written by the
cache helpers. Every field is optional, as for a Python dict. -/
structure CacheRecord where
  url : Option String := none
  title : Option String := none
  content : Option String := none
  fetch_method : Option String := none
  fetched_at : Option String := none
  content_hash : Option String := none
deriving DecidableEq, Repr

/-- Content of one cache file: JSON that parses into a record (`valid`),
text that decodes as UTF-8 but on which `json.loads` raises
(`garbage`), or bytes that are not valid UTF-8, on which
`read_text(encoding="utf-8")` itself raises `UnicodeDecodeError`
(`undecodable`). -/
inductive CacheFile where
  | valid (rec : CacheRecord)
  | garbage
  | undecodable
deriving DecidableEq, Repr

/-- The cache directory: file name (cache key) to file content; `none` is a
missing file. -/
def Store := String → Option CacheFile

/-- Write one file (full overwrite). -/
def Store.put (st : Store) (k : String) (f : CacheFile) : Store :=
  fun q => if q = k then some f else st q

/-- `load_cache`: `None` on missing file, JSON-unparsable text, or — when a
non-empty `content_hash` is stored — on hash mismatch against
`_content_hash(entry.get("content", ""))`. The Python truthiness test
`if stored_hash and ...` skips the check when the field is absent (or the
empty string). The `except (json.JSONDecodeError, OSError)` clause does
NOT catch `UnicodeDecodeError` (a `ValueError` subclass raised by
`read_text` on non-UTF-8 bytes), so on an undecodable file the function
raises instead of returning `None`. -/
def load_cache (H : String → String) (store : Store) (cache_key : String) :
    Except PyErr (Option CacheRecord) :=
  match store cache_key with
  | none => .ok none
  | some .undecodable => .error (.valueError ("UnicodeDecodeError: " ++ cache_key))
  | some .garbage => .ok none
  | some (.valid entry) =>
    if entry.content_hash.getD "" ≠ "" ∧
        H (entry.content.getD "") ≠ entry.content_hash.getD "" then .ok none
    else .ok (some entry)

/-- `is_expired`: `True` when `fetched_at` is missing or unparsable
(`except (KeyError, ValueError, TypeError)`), or when
`now - fetched_at > timedelta(days=ttl_days)`. -/
def is_expired (env : FetchEnv) (entry : CacheRecord) (ttl_days : Int) : Bool :=
  match entry.fetched_at with
  | none => true
  | some s =>
    match env.parseTime s with
    | none => true
    | some t => decide (env.wallNow - t > ttl_days * 86400)

/-- `save_cache`: when the entry carries a `content` field, store
`content_hash = sha256(content)` alongside it, then overwrite the file. -/
def save_cache (H : String → String) (store : Store) (cache_key : String)
    (entry : CacheRecord) : Store :=
  let entry2 :=
    match entry.content with
    | some c => { entry with content_hash := some (H c) }
    | none => entry
  store.put cache_key (.valid entry2)

/-- One observable side effect: an outbound HTTP request to the reader
service, an outbound request to the archive availability API, or a
`time.sleep`. -/
inductive NetEvent where
  | jinaGet (u : Url)
  | waybackGet (u : Url)
  | sleep (d : Int)
deriving DecidableEq, Repr

/-- An event stamped with the monotonic-clock time at which it started. -/
structure TEvent where
  time : Int
  ev : NetEvent
deriving DecidableEq, Repr

/-- `true` for the two outbound-request events, `false` for sleeps. -/
def TEvent.isNet (e : TEvent) : Bool :=
  match e.ev with
  | .sleep _ => false
  | _ => true

/-- Monotonic clock plus the trace of effects so far. -/
structure NetState where
  clock : Int
  events : List TEvent

/-- `requests.get(f"{JINA_BASE_URL}/{url}", ...)` followed by
`raise_for_status`: records the request, advances the clock by the call
duration, yields the body or the requests exception. -/
def jina_get (env : FetchEnv) (u : Url) (s : NetState) :
    Except PyErr String × NetState :=
  ((match env.jina u with
    | .ok text => .ok text
    | .error msg => .error (.httpError msg)),
   { clock := s.clock + env.jinaDur u,
     events := s.events ++ [⟨s.clock, .jinaGet u⟩] })

/-- `requests.get(WAYBACK_API, params={"url": url}, ...)` followed by
`raise_for_status` and `.json()`. -/
def wayback_get (env : FetchEnv) (u : Url) (s : NetState) :
    Except PyErr WaybackResp × NetState :=
  ((match env.wayback u with
    | .ok data => .ok data
    | .error msg => .error (.httpError msg)),
   { clock := s.clock + env.waybackDur u,
     events := s.events ++ [⟨s.clock, .waybackGet u⟩] })

/-- Title scan of `fetch_via_jina`: first line starting with a top-level
heading marker, with the marker dropped and the line stripped; `""` when
none. -/
def extract_title (content : String) : String :=
  match (content.splitOn "\n").find? (fun l => l.startsWith "# ") with
  | some l => (l.drop 2).trim
  | none => ""

/-- `fetch_via_jina`: validate, then GET the reader service, then extract the
title. Returns `(content, title)`. -/
def fetch_via_jina (env : FetchEnv) (u : Url) (s : NetState) :
    Except PyErr (String × String) × NetState :=
  match validate_url env u with
  | .error e => (.error e.toPyErr, s)
  | .ok _ =>
    match jina_get env u s with
    | (.error e, s1) => (.error e, s1)
    | (.ok content, s1) => (.ok (content, extract_title content), s1)

/-- `fetch_via_wayback`: query the availability API; raise `ValueError` when
there is no snapshot or its status is not "200"; otherwise fetch the snapshot
URL through `fetch_via_jina` (which re-validates it). -/
def fetch_via_wayback (env : FetchEnv) (u : Url) (s : NetState) :
    Except PyErr (String × String) × NetState :=
  match wayback_get env u s with
  | (.error e, s1) => (.error e, s1)
  | (.ok data, s1) =>
    match data.closest with
    | none =>
      (.error (.valueError ("No Wayback snapshot available for: " ++ u.raw)), s1)
    | some c =>
      if c.status ≠ some "200" then
        (.error (.valueError ("No Wayback snapshot available for: " ++ u.raw)), s1)
      else
        match c.url with
        | none => (.error (.keyError "url"), s1)
        | some v => fetch_via_jina env v s1

/-- `fetch_url`: primary fetch via the reader; `except ValueError: raise`
(SSRF rejections are not retried); any other failure falls back to the
archive, whose own failure is wrapped into the aggregated
`RuntimeError`. Returns `(content, title, method)`. -/
def fetch_url (env : FetchEnv) (u : Url) (s : NetState) :
    Except PyErr (String × String × String) × NetState :=
  match fetch_via_jina env u s with
  | (.ok (content, title), s1) => (.ok (content, title, "jina"), s1)
  | (.error (.valueError m), s1) => (.error (.valueError m), s1)
  | (.error _, s1) =>
    match fetch_via_wayback env u s1 with
    | (.ok (content, title), s2) => (.ok (content, title, "wayback"), s2)
    | (.error _, s2) =>
      (.error (.runtimeError ("All fetch methods failed for " ++ u.raw)), s2)

/-- `MAX_CONTENT_CHARS = 50_000`. -/
def MAX_CONTENT_CHARS : Nat := 50000

/-- `content[:MAX_CONTENT_CHARS]` (slice of code points). -/
def truncate (s : String) : String := ⟨s.data.take MAX_CONTENT_CHARS⟩

/-- Helper for `str.split()` with no separator: counts maximal runs of
non-whitespace characters; the flag records being inside a run. -/
def countWordsAux : Bool → List Char → Nat
  | _, [] => 0
  | inWord, c :: rest =>
    if c.isWhitespace then countWordsAux false rest
    else (if inWord then 0 else 1) + countWordsAux true rest

/-- `len(text.split())`. -/
def wordCount (s : String) : Nat := countWordsAux false s.data

/-- `ttl_days` and `fetch_delay` arguments of `process_urls`. -/
structure Config where
  ttl_days : Int
  fetch_delay : Int

/-- One element of the `fetched` output list of `process_urls`. -/
structure FetchResult where
  url : String
  title : String
  content : String
  fetch_method : String
  cache_hit : Bool
  fetched_at : String
  word_count : Nat
deriving DecidableEq, Repr

/-- One element of the `failed` output list of `process_urls`. -/
structure FetchFailure where
  url : String
  error : String
  attempts : List String
deriving DecidableEq, Repr

/-- Mutable state of the `process_urls` loop: monotonic clock, the
`last_fetch_time` local, the cache directory, the event trace. -/
structure RunState where
  clock : Int
  last_fetch_time : Int
  store : Store
  events : List TEvent

/-- The rate limiter of the cache-miss branch: sleep for the remaining delta
when less than `fetch_delay` elapsed since `last_fetch_time` and a fetch has
happened before (`last_fetch_time > 0`). The sleep is recorded in the trace
and advances the clock by exactly the slept amount. -/
def rate_limit (cfg : Config) (rs : RunState) : NetState :=
  if rs.clock - rs.last_fetch_time < cfg.fetch_delay ∧ rs.last_fetch_time > 0 then
    { clock := rs.clock + (cfg.fetch_delay - (rs.clock - rs.last_fetch_time)),
      events := rs.events ++
        [⟨rs.clock, .sleep (cfg.fetch_delay - (rs.clock - rs.last_fetch_time))⟩] }
  else { clock := rs.clock, events := rs.events }

/-- Cache-miss branch of the `process_urls` loop body: rate-limit sleep,
`fetch_url`, then on success truncate, record `last_fetch_time`, persist via
`save_cache` (the dict passed carries no `content_hash`; `save_cache` adds
it) and emit a result; on any exception emit a failure with the hard-coded
attempts list. Total: the `try/except Exception` catches everything
`fetch_url` raises. -/
def process_fetch (env : FetchEnv) (cfg : Config) (u : Url) (rs : RunState) :
    (FetchResult ⊕ FetchFailure) × RunState :=
  match fetch_url env u (rate_limit cfg rs) with
  | (.ok (content0, title, method), s2) =>
    (.inl { url := u.raw, title := title, content := truncate content0,
            fetch_method := method, cache_hit := false,
            fetched_at := env.nowStr, word_count := wordCount (truncate content0) },
     { clock := s2.clock, last_fetch_time := s2.clock,
       store := save_cache env.sha256 rs.store (url_cache_key env u.raw)
         { url := some u.raw, title := some title, content := some (truncate content0),
           fetch_method := some method, fetched_at := some env.nowStr,
           content_hash := none },
       events := s2.events })
  | (.error e, s2) =>
    (.inr { url := u.raw, error := e.str, attempts := ["jina", "wayback"] },
     { clock := s2.clock, last_fetch_time := rs.last_fetch_time,
       store := rs.store, events := s2.events })

/-- One iteration of the `process_urls` loop. A fresh cache hit is served with
no effects. The `load_cache` call and the subscript accesses
`cached["content"]` / `cached["fetched_at"]` all sit outside the `try`, so
a cache file with undecodable bytes (`UnicodeDecodeError` from
`load_cache`) or a tampered record missing those keys (`KeyError`) raises
out of the function — hence the `Except`. -/
def process_item (env : FetchEnv) (cfg : Config) (u : Url) (rs : RunState) :
    Except PyErr ((FetchResult ⊕ FetchFailure) × RunState) :=
  match load_cache env.sha256 rs.store (url_cache_key env u.raw) with
  | .error e => .error e
  | .ok (some cached) =>
    if is_expired env cached cfg.ttl_days then .ok (process_fetch env cfg u rs)
    else
      match cached.content with
      | none => .error (.keyError "content")
      | some c =>
        match cached.fetched_at with
        | none => .error (.keyError "fetched_at")
        | some fa =>
          .ok (.inl { url := u.raw, title := cached.title.getD "",
                      content := truncate c,
                      fetch_method := cached.fetch_method.getD "cached",
                      cache_hit := true, fetched_at := fa,
                      word_count := wordCount (truncate c) }, rs)
  | .ok none => .ok (process_fetch env cfg u rs)

/-- The `for item in urls` loop of `process_urls`, threading the run state and
collecting the two output lists in input order. -/
def process_urls_go (env : FetchEnv) (cfg : Config) :
    List Url → RunState →
    Except PyErr (List FetchResult × List FetchFailure × RunState)
  | [], rs => .ok ([], [], rs)
  | u :: rest, rs =>
    match process_item env cfg u rs with
    | .error e => .error e
    | .ok (out, rs2) =>
      match process_urls_go env cfg rest rs2 with
      | .error e => .error e
      | .ok (fetched, failed, rsf) =>
        match out with
        | .inl r => .ok (r :: fetched, failed, rsf)
        | .inr f => .ok (fetched, f :: failed, rsf)

/-- `process_urls`: run the loop from `last_fetch_time = 0` over the given
cache directory, starting the monotonic clock at `clock0`. -/
def process_urls (env : FetchEnv) (cfg : Config) (urls : List Url)
    (store0 : Store) (clock0 : Int) :
    Except PyErr (List FetchResult × List FetchFailure × RunState) :=
  process_urls_go env cfg urls
    { clock := clock0, last_fetch_time := 0, store := store0, events := [] }

/-- `MAX_DOWNLOAD_SIZE = 50 * 1024 * 1024`. -/
def MAX_DOWNLOAD_SIZE : Nat := 50 * 1024 * 1024

/-- The streamed response seen by `download_media`: whether
`raise_for_status` passes, the parsed `Content-Length` header (`none` for
absent or empty, i.e. falsy), and the chunk sequence that
`iter_content(chunk_size=8192)` would yield. -/
structure MediaResp where
  status_ok : Bool
  content_length : Option Int
  chunks : List (List UInt8)

/-- Environment of media_handler.py: `_validate_media_url` delegates to
`validate_url` imported from fetch_and_clean; `safe_filename` is an oracle
for `_safe_filename` (URL-path slicing plus a regex sanitizer plus a content
hash — no claim depends on its output). -/
structure MediaEnv where
  net : FetchEnv
  safe_filename : Url → List UInt8 → String

/-- `int(content_length) > MAX_DOWNLOAD_SIZE` guarded by header truthiness. -/
def declared_too_large (resp : MediaResp) : Bool :=
  match resp.content_length with
  | some n => decide (n > (MAX_DOWNLOAD_SIZE : Int))
  | none => false

/-- The `for chunk in response.iter_content(...)` loop: accumulate chunks in
memory, raising as soon as the running total exceeds the limit. -/
def read_chunks (limit : Nat) : List (List UInt8) → Nat →
    Except PyErr (List (List UInt8))
  | [], _ => .ok []
  | c :: rest, total =>
    let t := total + c.length
    if t > limit then
      .error (.runtimeError ("File exceeded " ++ toString limit ++ " byte limit"))
    else
      match read_chunks limit rest t with
      | .error e => .error e
      | .ok cs => .ok (c :: cs)

/-- `download_media` of media_handler.py. Returns the outcome paired with the
list of files written to the destination directory (name, bytes); the
Python original writes at most one file, and only after the whole body has
been buffered under the size ceiling. -/
def download_media (menv : MediaEnv) (u : Url) (resp : MediaResp)
    (filename : Option String) :
    Except PyErr (String × Nat) × List (String × List UInt8) :=
  match validate_url menv.net u with
  | .error e => (.error e.toPyErr, [])
  | .ok _ =>
    if resp.status_ok = false then
      (.error (.httpError ("HTTP error: " ++ u.raw)), [])
    else if declared_too_large resp then
      (.error (.runtimeError ("File too large: " ++ u.raw)), [])
    else
      match read_chunks MAX_DOWNLOAD_SIZE resp.chunks 0 with
      | .error e => (.error e, [])
      | .ok cs =>
        let data := cs.flatten
        let fname :=
          match filename with
          | some f => f
          | none => menv.safe_filename u data
        (.ok (fname, data.length), [(fname, data)])

/-- Network requests of a trace (sleeps filtered out). -/
def netEvents (l : List TEvent) : List TEvent := l.filter (fun e => e.isNet)

/-- Start times of the network requests of a trace, in order. -/
def netTimes (l : List TEvent) : List Int := (netEvents l).map TEvent.time

/-- Spec predicate for the rate-limit claim: every network request starts at
least `delay` after the previous network request started. -/
def enforcedMinInterval (delay : Int) (l : List TEvent) : Bool :=
  let ts := netTimes l
  (ts.zip ts.tail).all fun p => decide (p.2 - p.1 ≥ delay)

/-- Cache well-formedness: no file holds undecodable bytes, and every record
that parses carries a `content` field — both true of everything
`save_cache` writes (`json.dumps` output is valid UTF-8 JSON with a
`content` key). -/
def WFStore (st : Store) : Prop :=
  ∀ k, st k ≠ some .undecodable
    ∧ ∀ rec, st k = some (.valid rec) → rec.content.isSome = true

/-- Network calls take nonnegative wall-clock time. -/
def DursNonneg (env : FetchEnv) : Prop :=
  ∀ v, 0 ≤ env.jinaDur v ∧ 0 ≤ env.waybackDur v

/-! Concrete data for witnesses and counterexamples. -/

/-- A public address: no classification flag set. -/
def ipPublic : IPInfo := ⟨false, false, false, false⟩

/-- A loopback address (e.g. 127.0.0.1). -/
def ipLoopbackAddr : IPInfo := ⟨false, true, false, false⟩

/-- A private-range address (e.g. 10.0.0.1). -/
def ipPrivateAddr : IPInfo := ⟨true, false, false, false⟩

def urlA : Url := ⟨"https", "a.example.com", "https://a.example.com/x"⟩
def urlB : Url := ⟨"https", "b.example.com", "https://b.example.com/y"⟩
def urlLocal : Url := ⟨"http", "localhost", "http://localhost/secret"⟩
def urlFtp : Url := ⟨"ftp", "files.example.com", "ftp://files.example.com/z"⟩
def urlIPLoop : Url := ⟨"http", "127.0.0.1", "http://127.0.0.1/admin"⟩
def urlResolves : Url := ⟨"https", "internal.example", "https://internal.example/"⟩
def urlNx : Url := ⟨"https", "nxdomain.example", "https://nxdomain.example/"⟩
def urlSnap : Url :=
  ⟨"https", "web.archive.org", "https://web.archive.org/web/1/https://a.example.com/x"⟩

/-- Concrete environment: `127.0.0.1` is the only IP literal;
`internal.example` resolves to a private address, `nxdomain.example` fails
DNS, everything else resolves publicly; the reader succeeds only on `urlB`;
the archive has no snapshots; each call lasts one time unit (0.1 s). -/
def envW : FetchEnv where
  parseIP := fun h => if h = "127.0.0.1" then some ipLoopbackAddr else none
  dns := fun h =>
    if h = "internal.example" then some [ipPublic, ipPrivateAddr]
    else if h = "nxdomain.example" then none
    else some [ipPublic]
  sha256 := fun s => "sha-" ++ s
  jina := fun v => if v = urlB then .ok "# Title B\n\nbody b here" else .error "timeout"
  jinaDur := fun _ => 1
  wayback := fun _ => .ok ⟨none⟩
  waybackDur := fun _ => 1
  parseTime := fun s => if s = "2026-01-01T00:00:00+00:00" then some 1000 else none
  wallNow := 1000
  nowStr := "2026-01-01T00:00:00+00:00"

/-- Like `envW`, but the reader fails on everything except the archive
snapshot URL, and the archive has a status-200 snapshot of `urlA`. -/
def envC5 : FetchEnv :=
  { envW with
    jina := fun v => if v = urlSnap then .ok "# Archived\n\narchived body" else .error "HTTP 500"
    wayback := fun v => if v = urlA then .ok ⟨some ⟨some "200", some urlSnap⟩⟩ else .ok ⟨none⟩ }

/-- TTL 7 days, 10 time units (1 s) between fetches — the module defaults. -/
def cfgW : Config := ⟨7, 10⟩

/-- An empty cache directory. -/
def emptyStore : Store := fun _ => none

/-- Media environment over `envW` with a constant filename oracle. -/
def menvW : MediaEnv := ⟨envW, fun _ _ => "media.bin"⟩

/-- Initial run state for concrete batches: monotonic clock at 100 units, no
previous fetch, empty cache, empty trace. -/
def rs0 : RunState := ⟨100, 0, emptyStore, []⟩

/-- A fresh, integrity-intact cache record for `urlA` under `envW`. -/
def recHit : CacheRecord :=
  { url := some urlA.raw, title := some "A", content := some "cached content",
    fetch_method := some "jina", fetched_at := some "2026-01-01T00:00:00+00:00",
    content_hash := some (envW.sha256 "cached content") }

/-- A cache directory holding exactly the fresh entry for `urlA`. -/
def storeHit : Store := Store.put emptyStore (envW.sha256 urlA.raw) (.valid recHit)

/-- Run state over `storeHit`. -/
def rsHit : RunState := ⟨100, 0, storeHit, []⟩

/-- Run state whose previous successful fetch finished at time 50. -/
def rsB : RunState := ⟨100, 50, emptyStore, []⟩

/-- A cache directory whose file for `urlA` holds bytes that are not valid
UTF-8 (out-of-band corruption). -/
def storeUndec : Store := Store.put emptyStore (envW.sha256 urlA.raw) .undecodable

/-!  Theorems. -/

/-- C1: `validate_url` raises a blocked-destination error for every URL with
a non-web scheme, a deny-listed hostname, a literal IP in a blocked range, or
a hostname resolving to some blocked address; and when the hostname is a
domain name (not an IP literal) whose resolution fails, and no earlier check
fired, it does not raise. -/
theorem validate_url_claims (env : FetchEnv) (u : Url) :
    ((u.scheme ≠ "http" ∧ u.scheme ≠ "https") → ∃ e, validate_url env u = .error e)
  ∧ (u.hostname ∈ _BLOCKED_HOSTNAMES → ∃ e, validate_url env u = .error e)
  ∧ (∀ a, env.parseIP u.hostname = some a → a.blockedRange = true →
      ∃ e, validate_url env u = .error e)
  ∧ (∀ addrs, env.parseIP u.hostname = none → env.dns u.hostname = some addrs →
      addrs.any IPInfo.blockedRange = true → ∃ e, validate_url env u = .error e)
  ∧ ((u.scheme = "http" ∨ u.scheme = "https") → u.hostname ∉ _BLOCKED_HOSTNAMES →
      env.parseIP u.hostname = none → env.dns u.hostname = none →
      validate_url env u = .ok ()) := by
  unfold validate_url
  refine ⟨?_, ?_, ?_, ?_, ?_⟩
  · intro h
    rw [if_pos h]
    exact ⟨_, rfl⟩
  · intro h
    by_cases h1 : (u.scheme ≠ "http" ∧ u.scheme ≠ "https")
    · rw [if_pos h1]; exact ⟨_, rfl⟩
    · rw [if_neg h1, if_pos h]; exact ⟨_, rfl⟩
  · intro a ha hb
    by_cases h1 : (u.scheme ≠ "http" ∧ u.scheme ≠ "https")
    · rw [if_pos h1]; exact ⟨_, rfl⟩
    rw [if_neg h1]
    by_cases h2 : u.hostname ∈ _BLOCKED_HOSTNAMES
    · rw [if_pos h2]; exact ⟨_, rfl⟩
    rw [if_neg h2, ha]
    refine ⟨.blockedIP u.hostname u.raw, ?_⟩
    simp [hb]
  · intro addrs hip hdns hany
    by_cases h1 : (u.scheme ≠ "http" ∧ u.scheme ≠ "https")
    · rw [if_pos h1]; exact ⟨_, rfl⟩
    rw [if_neg h1]
    by_cases h2 : u.hostname ∈ _BLOCKED_HOSTNAMES
    · rw [if_pos h2]; exact ⟨_, rfl⟩
    rw [if_neg h2, hip, hdns]
    refine ⟨.blockedResolved u.hostname u.raw, ?_⟩
    simp [hany]
  · intro hs h2 hip hdns
    have h1 : ¬(u.scheme ≠ "http" ∧ u.scheme ≠ "https") := by
      rcases hs with h | h <;> simp [h]
    rw [if_neg h1, if_neg h2, hip, hdns]

/-- Witness for C1 at concrete URLs: blocked scheme, deny-listed hostname,
loopback IP literal, private-resolving domain, and a DNS failure that
passes validation. -/
theorem validate_url_claims_witness :
    (∃ e, validate_url envW urlFtp = .error e)
  ∧ (∃ e, validate_url envW urlLocal = .error e)
  ∧ (∃ e, validate_url envW urlIPLoop = .error e)
  ∧ (∃ e, validate_url envW urlResolves = .error e)
  ∧ validate_url envW urlNx = .ok () :=
  ⟨(validate_url_claims envW urlFtp).1 (by decide),
   (validate_url_claims envW urlLocal).2.1 (by decide),
   (validate_url_claims envW urlIPLoop).2.2.1 ipLoopbackAddr (by decide) (by decide),
   (validate_url_claims envW urlResolves).2.2.2.1 [ipPublic, ipPrivateAddr]
     (by decide) (by decide) (by decide),
   (validate_url_claims envW urlNx).2.2.2.2 (by decide) (by decide)
     (by decide) (by decide)⟩

/-- `load_cache` after writing one parsed record reduces to the integrity
check on that record. -/
theorem load_cache_put_valid (H : String → String) (st : Store) (k : String)
    (rec : CacheRecord) :
    load_cache H (st.put k (.valid rec)) k =
      (if rec.content_hash.getD "" ≠ "" ∧ H (rec.content.getD "") ≠ rec.content_hash.getD ""
       then .ok none else .ok (some rec)) := by
  unfold load_cache Store.put
  simp

/-- `load_cache` raises only on a file with undecodable bytes. -/
theorem load_cache_error (H : String → String) (st : Store) (k : String)
    (err : PyErr) (h : load_cache H st k = .error err) :
    st k = some .undecodable := by
  unfold load_cache at h
  cases hk : st k with
  | none =>
    simp only [hk] at h
    cases h
  | some f =>
    cases f with
    | valid rec =>
      simp only [hk] at h
      by_cases hc : (rec.content_hash.getD "" ≠ "" ∧
          H (rec.content.getD "") ≠ rec.content_hash.getD "")
      · rw [if_pos hc] at h
        cases h
      · rw [if_neg hc] at h
        cases h
    | garbage =>
      simp only [hk] at h
      cases h
    | undecodable => rfl

/-- `save_cache` on an entry carrying content stores the content hash. -/
theorem save_cache_eq (H : String → String) (st : Store) (k : String)
    (e : CacheRecord) (c : String) (hc : e.content = some c) :
    save_cache H st k e = st.put k (.valid { e with content_hash := some (H c) }) := by
  unfold save_cache
  rw [hc]

/-- The intact parts of the cache read/write contract: `get` after `put` on
an unmodified store returns byte-identical content; mutating the stored
content without updating the stored hash (for any mutation the digest
distinguishes) makes `get` return absent; and a missing file, JSON-garbage
text, and an integrity mismatch are all reported as absence. (The
undecodable-bytes path is NOT absence — see the claim theorem below.) -/
theorem cache_roundtrip_and_integrity (H : String → String) (st : Store)
    (k : String) (e : CacheRecord) (c : String) (hc : e.content = some c) :
    (∃ rec, load_cache H (save_cache H st k e) k = .ok (some rec) ∧ rec.content = some c)
  ∧ (∀ c2, H c ≠ "" → H c2 ≠ H c →
      load_cache H
        ((save_cache H st k e).put k
          (.valid { e with content := some c2, content_hash := some (H c) })) k = .ok none)
  ∧ (∀ st2 : Store, st2 k = none → load_cache H st2 k = .ok none)
  ∧ (∀ st2 : Store, st2 k = some .garbage → load_cache H st2 k = .ok none)
  ∧ (∀ (st2 : Store) (rec : CacheRecord) (sh : String), st2 k = some (.valid rec) →
      rec.content_hash = some sh → sh ≠ "" → H (rec.content.getD "") ≠ sh →
      load_cache H st2 k = .ok none) := by
  refine ⟨⟨{ e with content_hash := some (H c) }, ?_, hc⟩, ?_, ?_, ?_, ?_⟩
  · rw [save_cache_eq H st k e c hc, load_cache_put_valid]
    simp [hc]
  · intro c2 hne hne2
    rw [save_cache_eq H st k e c hc, load_cache_put_valid]
    simp only [Option.getD_some]
    rw [if_pos ⟨hne, by simpa using hne2⟩]
  · intro st2 h
    unfold load_cache
    rw [h]
  · intro st2 h
    unfold load_cache
    rw [h]
  · intro st2 rec sh hput hsh hne hmis
    unfold load_cache
    rw [hput]
    simp only [hsh, Option.getD_some]
    rw [if_pos ⟨hne, hmis⟩]

/-- Concrete instance of the intact cache contract: a put/get round-trip, a
tamper that is reported as absence, and the missing-file case. -/
theorem cache_roundtrip_witness :
    (∃ rec, load_cache envW.sha256
        (save_cache envW.sha256 emptyStore "k" { content := some "hello" }) "k" =
        .ok (some rec) ∧ rec.content = some "hello")
  ∧ load_cache envW.sha256
      ((save_cache envW.sha256 emptyStore "k" { content := some "hello" }).put "k"
        (.valid { content := some "tampered",
                  content_hash := some (envW.sha256 "hello") })) "k" = .ok none
  ∧ load_cache envW.sha256 emptyStore "k" = .ok none := by
  obtain ⟨h1, h2, h3, _⟩ :=
    cache_roundtrip_and_integrity envW.sha256 emptyStore "k"
      { content := some "hello" } "hello" rfl
  exact ⟨h1, h2 "tampered" (by decide) (by decide), h3 emptyStore rfl⟩

/-- C4 (code bug): the claim — and the docstring of `load_cache` itself,
"Return cached entry dict, or None if missing, corrupt, or tampered" — say
`get` never raises and reports unparsable records as absence. But the
clause `except (json.JSONDecodeError, OSError)` does not catch the
`UnicodeDecodeError` (a `ValueError` subclass) that
`read_text(encoding="utf-8")` raises on a cache file whose bytes are not
valid UTF-8: on such an out-of-band-corrupted record `get` raises instead
of returning absent, and since the `load_cache` call in the loop body sits
outside the per-item `try`, the exception escapes `process_urls` as well.
Evaluated here at the failing input (the file for `urlA`'s key holding
undecodable bytes). -/
theorem cache_get_raises_on_undecodable :
    load_cache envW.sha256 storeUndec (url_cache_key envW urlA.raw) =
      .error (.valueError ("UnicodeDecodeError: " ++ url_cache_key envW urlA.raw))
  ∧ process_urls envW cfgW [urlA] storeUndec 100 =
      .error (.valueError ("UnicodeDecodeError: " ++ url_cache_key envW urlA.raw)) :=
  ⟨rfl, rfl⟩

/-- C10: a record that parses but carries no `content_hash` field is returned
as a valid hit with no integrity verification at all, even though `put` adds
a hash to every entry that carries a `content` field. -/
theorem cache_missing_hash_accepted (H : String → String) (st : Store) (k : String) :
    (∀ rec : CacheRecord, rec.content_hash = none →
      load_cache H (st.put k (.valid rec)) k = .ok (some rec))
  ∧ (∀ (e : CacheRecord) (c : String), e.content = some c →
      save_cache H st k e =
        st.put k (.valid { e with content_hash := some (H c) })) := by
  constructor
  · intro rec hnone
    unfold load_cache Store.put
    simp [hnone]
  · intro e c hc
    unfold save_cache
    rw [hc]

/-- Witness for C10: a tampered record whose hash field was deleted along
with a content change is accepted as a hit, while `save_cache` stores a hash
for any entry with content. -/
theorem cache_missing_hash_witness :
    load_cache envW.sha256 (emptyStore.put "k2" (.valid { content := some "x" })) "k2" =
      .ok (some { content := some "x" })
  ∧ save_cache envW.sha256 emptyStore "k2" { content := some "y" } =
      emptyStore.put "k2"
        (.valid { content := some "y", content_hash := some (envW.sha256 "y") }) :=
  ⟨(cache_missing_hash_accepted envW.sha256 emptyStore "k2").1 _ rfl,
   (cache_missing_hash_accepted envW.sha256 emptyStore "k2").2 _ "y" rfl⟩

/-- Filtering network events distributes over concatenation. -/
theorem netEvents_append (l1 l2 : List TEvent) :
    netEvents (l1 ++ l2) = netEvents l1 ++ netEvents l2 := by
  unfold netEvents
  exact List.filter_append l1 l2

/-- The rate limiter adds no network event (at most a sleep). -/
theorem netEvents_rate_limit (cfg : Config) (rs : RunState) :
    netEvents (rate_limit cfg rs).events = netEvents rs.events := by
  unfold rate_limit
  split
  · rw [netEvents_append]
    simp [netEvents, TEvent.isNet]
  · rfl

/-- C2: a URL that fails validation transitions directly to failure:
`fetch_url` raises the validation `ValueError` without touching the network
or the fallback (the state, hence the trace, is returned untouched), and on
a cache miss (or expired entry) the loop body emits a `FetchFailure`
carrying that message, leaves the cache directory unchanged, and adds no
network request to the trace. -/
theorem validation_failure_fails_closed (env : FetchEnv) (cfg : Config) (u : Url)
    (rs : RunState) (e : ValidationError)
    (hv : validate_url env u = .error e)
    (hfile : rs.store (url_cache_key env u.raw) ≠ some .undecodable)
    (hmiss : ∀ rec,
      load_cache env.sha256 rs.store (url_cache_key env u.raw) = .ok (some rec) →
      is_expired env rec cfg.ttl_days = true) :
    (∀ s, fetch_url env u s = (.error e.toPyErr, s))
  ∧ ∃ rs2, process_item env cfg u rs =
        .ok (.inr ⟨u.raw, e.message, ["jina", "wayback"]⟩, rs2)
      ∧ rs2.store = rs.store ∧ netEvents rs2.events = netEvents rs.events := by
  have hfj : ∀ s, fetch_via_jina env u s = (.error e.toPyErr, s) := by
    intro s
    unfold fetch_via_jina
    rw [hv]
  have hfu : ∀ s, fetch_url env u s = (.error e.toPyErr, s) := by
    intro s
    unfold fetch_url
    rw [hfj s]
    rfl
  refine ⟨hfu, ?_⟩
  have hpf : process_fetch env cfg u rs =
      (.inr ⟨u.raw, e.message, ["jina", "wayback"]⟩,
       { clock := (rate_limit cfg rs).clock, last_fetch_time := rs.last_fetch_time,
         store := rs.store, events := (rate_limit cfg rs).events }) := by
    unfold process_fetch
    rw [hfu (rate_limit cfg rs)]
    rfl
  have hnet := netEvents_rate_limit cfg rs
  refine ⟨{ clock := (rate_limit cfg rs).clock, last_fetch_time := rs.last_fetch_time,
            store := rs.store, events := (rate_limit cfg rs).events }, ?_, rfl, hnet⟩
  cases hload : load_cache env.sha256 rs.store (url_cache_key env u.raw) with
  | error err =>
    exact absurd (load_cache_error env.sha256 rs.store _ err hload) hfile
  | ok o =>
    cases o with
    | none =>
      unfold process_item
      rw [hload, hpf]
    | some cached =>
      unfold process_item
      rw [hload]
      simp only [hmiss cached hload, if_true, hpf]

/-- Witness for C2: `http://localhost/secret` on an empty cache — the exact
scenario of the spec — yields the blocked-hostname failure, an unchanged
store and an empty network trace. -/
theorem validation_failure_witness :
    fetch_url envW urlLocal ⟨100, []⟩ =
      (.error (ValidationError.blockedHostname "localhost" "http://localhost/secret").toPyErr,
       ⟨100, []⟩)
  ∧ ∃ rs2, process_item envW cfgW urlLocal rs0 =
        .ok (.inr ⟨"http://localhost/secret",
          (ValidationError.blockedHostname "localhost" "http://localhost/secret").message,
          ["jina", "wayback"]⟩, rs2)
      ∧ rs2.store = rs0.store ∧ netEvents rs2.events = netEvents rs0.events := by
  obtain ⟨h1, h2⟩ :=
    validation_failure_fails_closed envW cfgW urlLocal rs0
      (.blockedHostname "localhost" "http://localhost/secret") (by rfl)
      (by simp [rs0, emptyStore])
      (by intro rec h; simp [load_cache, rs0, emptyStore, url_cache_key] at h)
  exact ⟨h1 ⟨100, []⟩, h2⟩

/-- C5: when the primary fetch fails transiently (the URL validates, the
reader call raises a requests error): with no snapshot, or a snapshot whose
status is not "200", `fetch_url` fails with the single aggregated
all-methods-exhausted error; with an available snapshot, the primary
extraction fetch is re-invoked on the snapshot URL after validating it (a
snapshot failing validation yields the aggregated error, with no reader
request for the snapshot in the trace), and on success the method of the
result is "wayback", not "jina". -/
theorem fallback_strategy_claims (env : FetchEnv) (u : Url) (msg : String)
    (hv : validate_url env u = .ok ()) (hj : env.jina u = .error msg) :
    (env.wayback u = .ok ⟨none⟩ →
      ∀ s, (fetch_url env u s).1 =
        .error (.runtimeError ("All fetch methods failed for " ++ u.raw)))
  ∧ (∀ c, env.wayback u = .ok ⟨some c⟩ → c.status ≠ some "200" →
      ∀ s, (fetch_url env u s).1 =
        .error (.runtimeError ("All fetch methods failed for " ++ u.raw)))
  ∧ (∀ c v, env.wayback u = .ok ⟨some c⟩ → c.status = some "200" → c.url = some v →
      (∀ e2, validate_url env v = .error e2 →
        ∀ s, fetch_url env u s =
          (.error (.runtimeError ("All fetch methods failed for " ++ u.raw)),
           { clock := s.clock + env.jinaDur u + env.waybackDur u,
             events := s.events ++ [⟨s.clock, .jinaGet u⟩,
               ⟨s.clock + env.jinaDur u, .waybackGet u⟩] }))
    ∧ (∀ content, validate_url env v = .ok () → env.jina v = .ok content →
        ∀ s, (fetch_url env u s).1 =
          .ok (content, extract_title content, "wayback"))) := by
  have hfj : ∀ s, fetch_via_jina env u s =
      (.error (.httpError msg),
       { clock := s.clock + env.jinaDur u,
         events := s.events ++ [⟨s.clock, .jinaGet u⟩] }) := by
    intro s
    unfold fetch_via_jina jina_get
    rw [hv, hj]
  refine ⟨?_, ?_, ?_⟩
  · intro hwb s
    simp only [fetch_url, hfj s, fetch_via_wayback, wayback_get, hwb]
  · intro c hwb hst s
    simp only [fetch_url, hfj s, fetch_via_wayback, wayback_get, hwb]
    rw [if_pos hst]
  · intro c v hwb hst hurl
    have hfw : ∀ s1, fetch_via_wayback env u s1 = fetch_via_jina env v
        { clock := s1.clock + env.waybackDur u,
          events := s1.events ++ [⟨s1.clock, .waybackGet u⟩] } := by
      intro s1
      simp only [fetch_via_wayback, wayback_get, hwb, hst, hurl]
      simp
    constructor
    · intro e2 hv2 s
      have hfjv : ∀ s2, fetch_via_jina env v s2 = (.error e2.toPyErr, s2) := by
        intro s2
        unfold fetch_via_jina
        rw [hv2]
      simp only [fetch_url, hfj s, hfw, hfjv, ValidationError.toPyErr]
      simp [List.append_assoc]
    · intro content hv2 hjv s
      have hfjv : ∀ s2, fetch_via_jina env v s2 =
          (.ok (content, extract_title content),
           { clock := s2.clock + env.jinaDur v,
             events := s2.events ++ [⟨s2.clock, .jinaGet v⟩] }) := by
        intro s2
        unfold fetch_via_jina jina_get
        rw [hv2, hjv]
      simp only [fetch_url, hfj s, hfw, hfjv]

/-- Witness for C5: under `envC5` the reader fails on everything live; for
`urlB` the archive has nothing, so retrieval fails with the aggregated
error; for `urlA` the archive offers a status-200 snapshot whose fetch
succeeds, and the emitted method is "wayback". -/
theorem fallback_strategy_witness :
    (fetch_url envC5 urlB ⟨0, []⟩).1 =
      .error (.runtimeError ("All fetch methods failed for " ++ urlB.raw))
  ∧ (fetch_url envC5 urlA ⟨0, []⟩).1 =
      .ok ("# Archived\n\narchived body",
        extract_title "# Archived\n\narchived body", "wayback") := by
  obtain ⟨hA, -, -⟩ := fallback_strategy_claims envC5 urlB "HTTP 500" (by rfl) (by rfl)
  obtain ⟨-, -, hC⟩ := fallback_strategy_claims envC5 urlA "HTTP 500" (by rfl) (by rfl)
  exact ⟨hA (by rfl) ⟨0, []⟩,
    ((hC ⟨some "200", some urlSnap⟩ urlSnap (by rfl) rfl rfl).2
      "# Archived\n\narchived body" (by rfl) (by rfl)) ⟨0, []⟩⟩

/-- The streaming loop raises once some prefix of the body exceeds the
limit. -/
theorem read_chunks_overflow (limit : Nat) (chunks : List (List UInt8)) :
    ∀ (total : Nat) (pre suf : List (List UInt8)),
      chunks = pre ++ suf → limit < total + (pre.map List.length).sum →
      total ≤ limit →
      ∃ err, read_chunks limit chunks total = .error err := by
  induction chunks with
  | nil =>
    intro total pre suf heq hbig hle
    have hpre : pre = [] := by
      cases pre with
      | nil => rfl
      | cons a l => exact absurd heq.symm (by simp)
    subst hpre
    simp at hbig
    omega
  | cons c rest ih =>
    intro total pre suf heq hbig hle
    unfold read_chunks
    by_cases h : total + c.length > limit
    · rw [if_pos h]
      exact ⟨_, rfl⟩
    · rw [if_neg h]
      cases pre with
      | nil =>
        simp at hbig
        omega
      | cons p ps =>
        rw [List.cons_append] at heq
        injection heq with h1 h2
        subst h1
        have hbig2 : limit < total + c.length + (ps.map List.length).sum := by
          simp only [List.map_cons, List.sum_cons] at hbig
          omega
        obtain ⟨err, herr⟩ := ih (total + c.length) ps suf h2 hbig2 (by omega)
        rw [herr]
        exact ⟨err, rfl⟩

/-- When the streaming loop completes it has consumed exactly the stream,
and the bytes buffered stay within the limit. -/
theorem read_chunks_ok_bound (limit : Nat) (chunks : List (List UInt8)) :
    ∀ (total : Nat) (cs : List (List UInt8)),
      read_chunks limit chunks total = .ok cs →
      cs = chunks ∧ (chunks ≠ [] → total + cs.flatten.length ≤ limit) := by
  induction chunks with
  | nil =>
    intro total cs h
    unfold read_chunks at h
    injection h with h1
    exact ⟨h1.symm, fun hne => absurd rfl hne⟩
  | cons c rest ih =>
    intro total cs h
    unfold read_chunks at h
    by_cases hb : total + c.length > limit
    · rw [if_pos hb] at h
      cases h
    · rw [if_neg hb] at h
      cases hr : read_chunks limit rest (total + c.length) with
      | error e =>
        rw [hr] at h
        cases h
      | ok cs2 =>
        rw [hr] at h
        injection h with h1
        obtain ⟨hcs, hbound⟩ := ih (total + c.length) cs2 hr
        constructor
        · rw [← h1, hcs]
        · intro _
          rw [← h1, List.flatten_cons, List.length_append]
          cases hc2 : cs2 with
          | nil =>
            simp
            omega
          | cons r rr =>
            have hb2 := hbound (by rw [← hcs, hc2]; simp)
            rw [hc2] at hb2
            omega

/-- `download_media` on a URL failing validation: the SSRF rejection
propagates, nothing is written. -/
theorem download_media_valfail (menv : MediaEnv) (u : Url) (resp : MediaResp)
    (fname : Option String) (e : ValidationError)
    (hval : validate_url menv.net u = .error e) :
    download_media menv u resp fname = (.error e.toPyErr, []) := by
  simp only [download_media, hval]

/-- `download_media` when `raise_for_status` raises: nothing is written. -/
theorem download_media_badstatus (menv : MediaEnv) (u : Url) (resp : MediaResp)
    (fname : Option String)
    (hval : validate_url menv.net u = .ok ()) (hok : resp.status_ok = false) :
    download_media menv u resp fname =
      (.error (.httpError ("HTTP error: " ++ u.raw)), []) := by
  simp only [download_media, hval, hok, if_true]

/-- `download_media` with a declared length over the ceiling: it raises
before transferring, nothing is written. -/
theorem download_media_declared (menv : MediaEnv) (u : Url) (resp : MediaResp)
    (fname : Option String)
    (hval : validate_url menv.net u = .ok ()) (hok : resp.status_ok = true)
    (hd : declared_too_large resp = true) :
    download_media menv u resp fname =
      (.error (.runtimeError ("File too large: " ++ u.raw)), []) := by
  simp only [download_media, hval, hok, hd, if_true]
  simp

/-- `download_media` when the stream overflows mid-transfer: the streaming
error propagates, nothing is written. -/
theorem download_media_streamerr (menv : MediaEnv) (u : Url) (resp : MediaResp)
    (fname : Option String) (err : PyErr)
    (hval : validate_url menv.net u = .ok ()) (hok : resp.status_ok = true)
    (hd : declared_too_large resp = false)
    (herr : read_chunks MAX_DOWNLOAD_SIZE resp.chunks 0 = .error err) :
    download_media menv u resp fname = (.error err, []) := by
  simp only [download_media, hval, hok, hd, herr]
  simp

/-- `download_media` when the whole body fits: exactly one file is written,
holding the buffered bytes. -/
theorem download_media_success (menv : MediaEnv) (u : Url) (resp : MediaResp)
    (fname : Option String) (cs : List (List UInt8))
    (hval : validate_url menv.net u = .ok ()) (hok : resp.status_ok = true)
    (hd : declared_too_large resp = false)
    (hcs : read_chunks MAX_DOWNLOAD_SIZE resp.chunks 0 = .ok cs) :
    ∃ nm, download_media menv u resp fname =
      (.ok (nm, cs.flatten.length), [(nm, cs.flatten)]) := by
  refine ⟨match fname with | some f => f | none => menv.safe_filename u cs.flatten, ?_⟩
  simp only [download_media, hval, hok, hd, hcs]
  simp

/-- C6: a declared content length over the 50 MB ceiling makes
`download_media` raise before any bytes are written; a stream whose prefix
exceeds the ceiling (absent or inaccurate declared length) aborts with
nothing written; and no file larger than the ceiling is ever written to the
destination. -/
theorem download_media_size_ceiling (menv : MediaEnv) (u : Url) (resp : MediaResp)
    (fname : Option String) :
    (∀ n : Int, resp.content_length = some n → (MAX_DOWNLOAD_SIZE : Int) < n →
      (∃ err, (download_media menv u resp fname).1 = .error err)
      ∧ (download_media menv u resp fname).2 = [])
  ∧ (∀ pre suf, resp.chunks = pre ++ suf →
      MAX_DOWNLOAD_SIZE < (pre.map List.length).sum →
      (∃ err, (download_media menv u resp fname).1 = .error err)
      ∧ (download_media menv u resp fname).2 = [])
  ∧ (∀ f data, (f, data) ∈ (download_media menv u resp fname).2 →
      data.length ≤ MAX_DOWNLOAD_SIZE) := by
  refine ⟨?_, ?_, ?_⟩
  · intro n hn hbig
    cases hval : validate_url menv.net u with
    | error e =>
      rw [download_media_valfail menv u resp fname e hval]
      exact ⟨⟨_, rfl⟩, rfl⟩
    | ok v =>
      cases v
      by_cases hok : resp.status_ok = true
      · have hd : declared_too_large resp = true := by
          unfold declared_too_large
          rw [hn]
          simpa using hbig
        rw [download_media_declared menv u resp fname hval hok hd]
        exact ⟨⟨_, rfl⟩, rfl⟩
      · rw [download_media_badstatus menv u resp fname hval (by simpa using hok)]
        exact ⟨⟨_, rfl⟩, rfl⟩
  · intro pre suf heq hbig
    cases hval : validate_url menv.net u with
    | error e =>
      rw [download_media_valfail menv u resp fname e hval]
      exact ⟨⟨_, rfl⟩, rfl⟩
    | ok v =>
      cases v
      by_cases hok : resp.status_ok = true
      · by_cases hd : declared_too_large resp = true
        · rw [download_media_declared menv u resp fname hval hok hd]
          exact ⟨⟨_, rfl⟩, rfl⟩
        · obtain ⟨err, herr⟩ :=
            read_chunks_overflow MAX_DOWNLOAD_SIZE resp.chunks 0 pre suf heq
              (by omega) (by omega)
          rw [download_media_streamerr menv u resp fname err hval hok
            (by simpa using hd) herr]
          exact ⟨⟨_, rfl⟩, rfl⟩
      · rw [download_media_badstatus menv u resp fname hval (by simpa using hok)]
        exact ⟨⟨_, rfl⟩, rfl⟩
  · intro f data hmem
    cases hval : validate_url menv.net u with
    | error e =>
      rw [download_media_valfail menv u resp fname e hval] at hmem
      cases hmem
    | ok v =>
      cases v
      by_cases hok : resp.status_ok = true
      · by_cases hd : declared_too_large resp = true
        · rw [download_media_declared menv u resp fname hval hok hd] at hmem
          cases hmem
        · cases hr : read_chunks MAX_DOWNLOAD_SIZE resp.chunks 0 with
          | error err =>
            rw [download_media_streamerr menv u resp fname err hval hok
              (by simpa using hd) hr] at hmem
            cases hmem
          | ok cs =>
            obtain ⟨nm, hdl⟩ := download_media_success menv u resp fname cs hval hok
              (by simpa using hd) hr
            rw [hdl] at hmem
            obtain ⟨hcs, hbound⟩ := read_chunks_ok_bound MAX_DOWNLOAD_SIZE resp.chunks 0 cs hr
            have hpair : f = nm ∧ data = cs.flatten := by
              simpa using hmem
            rw [hpair.2]
            cases hchunks : resp.chunks with
            | nil =>
              subst hcs
              rw [hchunks]
              simp
            | cons a l =>
              have := hbound (by rw [hchunks]; simp)
              omega
      · rw [download_media_badstatus menv u resp fname hval (by simpa using hok)] at hmem
        cases hmem

/-- Witness for C6 at concrete inputs: a declared length one byte over the
ceiling raises with nothing written; a single 50 MB + 1 chunk aborts
mid-stream with nothing written; a small download stays under the
ceiling. -/
theorem download_media_size_witness :
    ((∃ err, (download_media menvW urlB ⟨true, some 52428801, []⟩ (some "f.bin")).1 =
        .error err)
      ∧ (download_media menvW urlB ⟨true, some 52428801, []⟩ (some "f.bin")).2 = [])
  ∧ ((∃ err, (download_media menvW urlB
        ⟨true, none, [List.replicate 52428801 0]⟩ (some "g.bin")).1 = .error err)
      ∧ (download_media menvW urlB
          ⟨true, none, [List.replicate 52428801 0]⟩ (some "g.bin")).2 = [])
  ∧ ([1, 2, 3] : List UInt8).length ≤ MAX_DOWNLOAD_SIZE := by
  refine ⟨?_, ?_, ?_⟩
  · exact (download_media_size_ceiling menvW urlB ⟨true, some 52428801, []⟩
      (some "f.bin")).1 52428801 rfl (by norm_num [MAX_DOWNLOAD_SIZE])
  · exact (download_media_size_ceiling menvW urlB
      ⟨true, none, [List.replicate 52428801 0]⟩ (some "g.bin")).2.1
      [List.replicate 52428801 0] [] rfl
      (by rw [List.map_cons, List.map_nil, List.length_replicate, List.sum_cons,
              List.sum_nil, MAX_DOWNLOAD_SIZE]
          norm_num)
  · exact (download_media_size_ceiling menvW urlB ⟨true, none, [[1, 2, 3]]⟩
      (some "h.bin")).2.2 "h.bin" [1, 2, 3] (by decide)

/-- `save_cache` preserves cache well-formedness whenever the written entry
carries content. -/
theorem WFStore_save (H : String → String) (st : Store) (k : String)
    (e : CacheRecord) (c : String) (hc : e.content = some c) (hwf : WFStore st) :
    WFStore (save_cache H st k e) := by
  intro q
  rw [save_cache_eq H st k e c hc]
  unfold Store.put
  by_cases hqk : q = k
  · rw [if_pos hqk]
    constructor
    · intro h
      injection h with h1
      cases h1
    · intro rec hq
      injection hq with h1
      injection h1 with h2
      rw [← h2]
      simp [hc]
  · rw [if_neg hqk]
    exact hwf q

/-- The empty cache directory is well-formed. -/
theorem emptyStore_wf : WFStore emptyStore :=
  fun _ => ⟨fun h => Option.noConfusion h, fun _ h => Option.noConfusion h⟩

/-- A cache hit comes verbatim from the store. -/
theorem load_cache_some (H : String → String) (st : Store) (k : String)
    (rec : CacheRecord) (h : load_cache H st k = .ok (some rec)) :
    st k = some (.valid rec) := by
  unfold load_cache at h
  cases hk : st k with
  | none =>
    simp only [hk] at h
    simp at h
  | some f =>
    cases f with
    | garbage =>
      simp only [hk] at h
      simp at h
    | undecodable =>
      simp only [hk] at h
      cases h
    | valid e =>
      simp only [hk] at h
      by_cases hcnd : (e.content_hash.getD "" ≠ "" ∧
          H (e.content.getD "") ≠ e.content_hash.getD "")
      · rw [if_pos hcnd] at h
        simp at h
      · rw [if_neg hcnd] at h
        injection h with h1
        injection h1 with h2
        rw [h2]

/-- A non-expired entry carries a parsable `fetched_at` (so the subscript
access in the loop body cannot raise for it). -/
theorem fetched_at_of_not_expired (env : FetchEnv) (entry : CacheRecord)
    (ttl : Int) (h : is_expired env entry ttl = false) :
    ∃ fa, entry.fetched_at = some fa := by
  cases hfa : entry.fetched_at with
  | none =>
    unfold is_expired at h
    simp only [hfa] at h
    cases h
  | some fa => exact ⟨fa, rfl⟩

/-- The cache-miss branch always returns exactly one outcome for the URL:
a result (with truncated content and the word count of the truncated text)
or a failure with the hard-coded attempts list; well-formedness of the cache
is preserved. -/
theorem process_fetch_spec (env : FetchEnv) (cfg : Config) (u : Url)
    (rs : RunState) (hwf : WFStore rs.store) :
    ∃ out rs2, process_fetch env cfg u rs = (out, rs2) ∧ WFStore rs2.store
      ∧ (∀ r, out = .inl r → r.url = u.raw ∧
          ∃ src, r.content = truncate src ∧ r.word_count = wordCount (truncate src))
      ∧ (∀ f, out = .inr f → f.url = u.raw ∧ f.attempts = ["jina", "wayback"]) := by
  cases hfu : fetch_url env u (rate_limit cfg rs) with
  | mk res s2 =>
    cases res with
    | ok v =>
      obtain ⟨content0, title, method⟩ := v
      refine ⟨.inl { url := u.raw, title := title, content := truncate content0,
                     fetch_method := method, cache_hit := false,
                     fetched_at := env.nowStr,
                     word_count := wordCount (truncate content0) },
              { clock := s2.clock, last_fetch_time := s2.clock,
                store := save_cache env.sha256 rs.store (url_cache_key env u.raw)
                  { url := some u.raw, title := some title,
                    content := some (truncate content0),
                    fetch_method := some method, fetched_at := some env.nowStr,
                    content_hash := none },
                events := s2.events }, ?_, ?_, ?_, ?_⟩
      · unfold process_fetch
        rw [hfu]
      · exact WFStore_save env.sha256 rs.store (url_cache_key env u.raw)
          { url := some u.raw, title := some title,
            content := some (truncate content0), fetch_method := some method,
            fetched_at := some env.nowStr, content_hash := none }
          (truncate content0) rfl hwf
      · intro r h
        injection h with h1
        subst h1
        exact ⟨rfl, content0, rfl, rfl⟩
      · intro f h
        cases h
    | error e =>
      refine ⟨.inr { url := u.raw, error := e.str, attempts := ["jina", "wayback"] },
              { clock := s2.clock, last_fetch_time := rs.last_fetch_time,
                store := rs.store, events := s2.events }, ?_, hwf, ?_, ?_⟩
      · unfold process_fetch
        rw [hfu]
      · intro r h
        cases h
      · intro f h
        injection h with h1
        subst h1
        exact ⟨rfl, rfl⟩

/-- On a well-formed cache the loop body never raises, and its single
outcome satisfies the per-item contract. -/
theorem process_item_ok (env : FetchEnv) (cfg : Config) (u : Url) (rs : RunState)
    (hwf : WFStore rs.store) :
    ∃ out rs2, process_item env cfg u rs = .ok (out, rs2) ∧ WFStore rs2.store
      ∧ (∀ r, out = .inl r → r.url = u.raw ∧
          ∃ src, r.content = truncate src ∧ r.word_count = wordCount (truncate src))
      ∧ (∀ f, out = .inr f → f.url = u.raw ∧ f.attempts = ["jina", "wayback"]) := by
  cases hload : load_cache env.sha256 rs.store (url_cache_key env u.raw) with
  | error err =>
    exact absurd (load_cache_error env.sha256 rs.store _ err hload)
      (hwf (url_cache_key env u.raw)).1
  | ok o =>
    cases o with
    | none =>
      obtain ⟨out, rs2, hpf, hwf2, hinl, hinr⟩ := process_fetch_spec env cfg u rs hwf
      refine ⟨out, rs2, ?_, hwf2, hinl, hinr⟩
      unfold process_item
      rw [hload, hpf]
    | some cached =>
      by_cases hexp : is_expired env cached cfg.ttl_days = true
      · obtain ⟨out, rs2, hpf, hwf2, hinl, hinr⟩ := process_fetch_spec env cfg u rs hwf
        refine ⟨out, rs2, ?_, hwf2, hinl, hinr⟩
        unfold process_item
        rw [hload]
        simp only [hexp, if_true, hpf]
      · have hexp2 : is_expired env cached cfg.ttl_days = false := by
          simpa using hexp
        have hcs : cached.content.isSome = true :=
          (hwf (url_cache_key env u.raw)).2 cached
            (load_cache_some env.sha256 rs.store _ cached hload)
        obtain ⟨c, hc⟩ := Option.isSome_iff_exists.mp hcs
        obtain ⟨fa, hfa⟩ := fetched_at_of_not_expired env cached cfg.ttl_days hexp2
        refine ⟨.inl { url := u.raw, title := cached.title.getD "",
                       content := truncate c,
                       fetch_method := cached.fetch_method.getD "cached",
                       cache_hit := true, fetched_at := fa,
                       word_count := wordCount (truncate c) }, rs, ?_, hwf, ?_, ?_⟩
        · unfold process_item
          rw [hload]
          simp only [hexp2, Bool.false_eq_true, if_false, hc, hfa]
        · intro r h
          injection h with h1
          subst h1
          exact ⟨rfl, c, rfl, rfl⟩
        · intro f h
          cases h

/-- Loop invariant of `process_urls_go` over a well-formed cache: the loop
never raises, every input yields exactly one output (the two output URL
lists interleave to the input URL list), results carry truncated content
with matching word counts, failures carry the constant attempts list. -/
theorem process_urls_go_spec (env : FetchEnv) (cfg : Config) (urls : List Url) :
    ∀ rs, WFStore rs.store →
    ∃ fetched failed rsf, process_urls_go env cfg urls rs = .ok (fetched, failed, rsf)
      ∧ fetched.length + failed.length = urls.length
      ∧ (fetched.map FetchResult.url ++ failed.map FetchFailure.url).Perm
          (urls.map Url.raw)
      ∧ (∀ r ∈ fetched, ∃ src, r.content = truncate src
          ∧ r.word_count = wordCount (truncate src))
      ∧ (∀ f ∈ failed, f.attempts = ["jina", "wayback"]) := by
  induction urls with
  | nil =>
    intro rs hwf
    exact ⟨[], [], rs, rfl, rfl, by simp, by simp, by simp⟩
  | cons u rest ih =>
    intro rs hwf
    obtain ⟨out, rs2, hstep, hwf2, hinl, hinr⟩ := process_item_ok env cfg u rs hwf
    obtain ⟨fetched, failed, rsf, hgo, hlen, hperm, hcontent, hattempts⟩ := ih rs2 hwf2
    cases out with
    | inl r =>
      obtain ⟨hurl, hsrc⟩ := hinl r rfl
      refine ⟨r :: fetched, failed, rsf, ?_, ?_, ?_, ?_, hattempts⟩
      · unfold process_urls_go
        simp only [hstep, hgo]
      · simp only [List.length_cons]
        omega
      · simp only [List.map_cons, List.cons_append, hurl]
        exact hperm.cons u.raw
      · intro r2 hr2
        rcases List.mem_cons.mp hr2 with h | h
        · subst h
          exact hsrc
        · exact hcontent r2 h
    | inr f =>
      obtain ⟨hurl, hatt⟩ := hinr f rfl
      refine ⟨fetched, f :: failed, rsf, ?_, ?_, ?_, hcontent, ?_⟩
      · unfold process_urls_go
        simp only [hstep, hgo]
      · simp only [List.length_cons]
        omega
      · simp only [List.map_cons]
        refine List.Perm.trans List.perm_middle ?_
        rw [hurl]
        exact hperm.cons u.raw
      · intro f2 hf2
        rcases List.mem_cons.mp hf2 with h | h
        · subst h
          exact hatt
        · exact hattempts f2 h

/-- Truncation yields exactly `min` of ceiling and original length. -/
theorem truncate_length (s : String) :
    (truncate s).length = min MAX_CONTENT_CHARS s.length := by
  unfold truncate
  exact List.length_take ..

/-- Truncated content never exceeds the ceiling. -/
theorem truncate_length_le (s : String) :
    (truncate s).length ≤ MAX_CONTENT_CHARS := by
  rw [truncate_length]
  exact Nat.min_le_left ..

/-- Content within the ceiling is unchanged by truncation. -/
theorem truncate_of_le (s : String) (h : s.length ≤ MAX_CONTENT_CHARS) :
    truncate s = s := by
  unfold truncate
  rw [List.take_of_length_le h]

/-- The deduplicated list has pairwise-distinct normalized URLs, none of
them in the seen set. -/
theorem dedup_go_nodup (urls : List Url) :
    ∀ seen : List String,
      ((dedup_go urls seen).map (fun u => normalize_url u.raw)).Nodup
      ∧ ∀ k ∈ (dedup_go urls seen).map (fun u => normalize_url u.raw), k ∉ seen := by
  induction urls with
  | nil =>
    intro seen
    constructor
    · exact List.nodup_nil
    · intro k hk
      cases hk
  | cons u rest ih =>
    intro seen
    unfold dedup_go
    by_cases h : normalize_url u.raw ∈ seen
    · rw [if_pos h]
      exact ih seen
    · rw [if_neg h]
      obtain ⟨hnd, hmem⟩ := ih (normalize_url u.raw :: seen)
      constructor
      · rw [List.map_cons]
        exact List.nodup_cons.mpr
          ⟨fun hin => (hmem _ hin) (List.mem_cons_self _ _), hnd⟩
      · intro k hk
        rw [List.map_cons] at hk
        rcases List.mem_cons.mp hk with rfl | hk2
        · exact h
        · intro hks
          exact (hmem _ hk2) (List.mem_cons_of_mem _ hks)

/-- Deduplicated requests have pairwise-distinct raw URLs (two equal raws
share a normalization, so the second would have been dropped). -/
theorem deduplicate_urls_nodup (urls : List Url) :
    ((deduplicate_urls urls).map Url.raw).Nodup := by
  have h1 := (dedup_go_nodup urls []).1
  have h2 : (((deduplicate_urls urls).map Url.raw).map normalize_url).Nodup := by
    rw [List.map_map]
    exact h1
  exact List.Nodup.of_map normalize_url h2

/-- C3: on a well-formed cache, every deduplicated request is accounted for
in exactly one of the two output lists — the loop never raises, the lengths
add up, the output URLs are a permutation of the input URLs, and no URL
lands in both lists. -/
theorem process_urls_partitions (env : FetchEnv) (cfg : Config) (urls0 : List Url)
    (store0 : Store) (clock0 : Int) (hwf : WFStore store0) :
    ∃ fetched failed rsf,
      process_urls env cfg (deduplicate_urls urls0) store0 clock0 =
        .ok (fetched, failed, rsf)
      ∧ fetched.length + failed.length = (deduplicate_urls urls0).length
      ∧ (fetched.map FetchResult.url ++ failed.map FetchFailure.url).Perm
          ((deduplicate_urls urls0).map Url.raw)
      ∧ ∀ x, x ∈ fetched.map FetchResult.url → x ∉ failed.map FetchFailure.url := by
  obtain ⟨fetched, failed, rsf, hgo, hlen, hperm, -, -⟩ :=
    process_urls_go_spec env cfg (deduplicate_urls urls0)
      { clock := clock0, last_fetch_time := 0, store := store0, events := [] } hwf
  refine ⟨fetched, failed, rsf, hgo, hlen, hperm, ?_⟩
  intro x hx hx2
  have hnodup : ((deduplicate_urls urls0).map Url.raw).Nodup :=
    deduplicate_urls_nodup urls0
  exact (List.disjoint_of_nodup_append (hperm.symm.nodup hnodup)) hx hx2

/-- Witness for C3: a three-request batch with one duplicate under the
concrete environment is fully accounted for. -/
theorem process_urls_partitions_witness :
    ∃ fetched failed rsf,
      process_urls envW cfgW (deduplicate_urls [urlA, urlB, urlA]) emptyStore 100 =
        .ok (fetched, failed, rsf)
      ∧ fetched.length + failed.length = (deduplicate_urls [urlA, urlB, urlA]).length
      ∧ ∀ x, x ∈ fetched.map FetchResult.url → x ∉ failed.map FetchFailure.url := by
  obtain ⟨fetched, failed, rsf, h1, h2, -, h4⟩ :=
    process_urls_partitions envW cfgW [urlA, urlB, urlA] emptyStore 100
      emptyStore_wf
  exact ⟨fetched, failed, rsf, h1, h2, h4⟩

/-- C8: every emitted result (cache hit or fresh) carries content truncated
to the ceiling — the truncation of some source text, hence never longer
than the ceiling — and its word count is computed from that truncated
content; truncation cuts to exactly the ceiling when the source is longer
and is the identity otherwise. -/
theorem emitted_content_truncated (env : FetchEnv) (cfg : Config) (urls : List Url)
    (store0 : Store) (clock0 : Int) (hwf : WFStore store0) :
    (∃ fetched failed rsf,
      process_urls env cfg urls store0 clock0 = .ok (fetched, failed, rsf)
      ∧ ∀ r ∈ fetched, r.content.length ≤ MAX_CONTENT_CHARS
          ∧ r.word_count = wordCount r.content
          ∧ ∃ src, r.content = truncate src)
  ∧ (∀ s : String, MAX_CONTENT_CHARS < s.length →
      (truncate s).length = MAX_CONTENT_CHARS)
  ∧ (∀ s : String, s.length ≤ MAX_CONTENT_CHARS → truncate s = s) := by
  refine ⟨?_, ?_, truncate_of_le⟩
  · obtain ⟨fetched, failed, rsf, h1, -, -, h4, -⟩ :=
      process_urls_go_spec env cfg urls
        { clock := clock0, last_fetch_time := 0, store := store0, events := [] } hwf
    refine ⟨fetched, failed, rsf, h1, ?_⟩
    intro r hr
    obtain ⟨src, hcontent, hwc⟩ := h4 r hr
    refine ⟨?_, ?_, src, hcontent⟩
    · rw [hcontent]
      exact truncate_length_le src
    · rw [hcontent, hwc]
  · intro s h
    rw [truncate_length]
    exact Nat.min_eq_left h.le

/-- Witness for C8: a concrete one-request batch plus a concrete truncation
identity. -/
theorem emitted_content_truncated_witness :
    (∃ fetched failed rsf,
      process_urls envW cfgW [urlB] emptyStore 100 = .ok (fetched, failed, rsf)
      ∧ ∀ r ∈ fetched, r.content.length ≤ MAX_CONTENT_CHARS
          ∧ r.word_count = wordCount r.content
          ∧ ∃ src, r.content = truncate src)
  ∧ (truncate "ab").length = 2 := by
  obtain ⟨h1, -, h3⟩ :=
    emitted_content_truncated envW cfgW [urlB] emptyStore 100
      emptyStore_wf
  refine ⟨h1, ?_⟩
  rw [h3 "ab" (by decide)]
  rfl

/-- C9 counterexample: for `http://localhost/secret` validation fails before
any request, so neither the reader nor the archive is ever attempted (the
network trace is empty), yet the emitted failure's attempts field reads
`["jina", "wayback"]` — listing a method (indeed two) that was never
tried. The claim that attempts lists exactly the methods actually tried is
therefore false. -/
theorem attempts_list_counterexample :
    (process_urls envW cfgW [urlLocal] emptyStore 100).toOption.map
      (fun t => (t.2.1.map FetchFailure.attempts, netEvents t.2.2.events)) =
      some ([["jina", "wayback"]], []) := by
  decide

/-- C9 amended: the attempts field of every emitted failure is the constant
list `["jina", "wayback"]` (the full strategy order), regardless of which
methods were actually attempted. -/
theorem attempts_list_constant (env : FetchEnv) (cfg : Config) (urls : List Url)
    (store0 : Store) (clock0 : Int) (hwf : WFStore store0) :
    ∃ fetched failed rsf,
      process_urls env cfg urls store0 clock0 = .ok (fetched, failed, rsf)
      ∧ ∀ f ∈ failed, f.attempts = ["jina", "wayback"] := by
  obtain ⟨fetched, failed, rsf, h1, -, -, -, h5⟩ :=
    process_urls_go_spec env cfg urls
      { clock := clock0, last_fetch_time := 0, store := store0, events := [] } hwf
  exact ⟨fetched, failed, rsf, h1, h5⟩

/-- Witness for the amended C9 at a concrete batch. -/
theorem attempts_list_constant_witness :
    ∃ fetched failed rsf,
      process_urls envW cfgW [urlLocal] emptyStore 100 = .ok (fetched, failed, rsf)
      ∧ ∀ f ∈ failed, f.attempts = ["jina", "wayback"] :=
  attempts_list_constant envW cfgW [urlLocal] emptyStore 100
    emptyStore_wf

/-- The network calls of `envW` take nonnegative time. -/
theorem envW_durs : DursNonneg envW :=
  fun _ => ⟨by norm_num [envW], by norm_num [envW]⟩

/-- A reader call appends one event stamped at the current clock and moves
the clock forward. -/
theorem jina_get_trace (env : FetchEnv) (v : Url) (s : NetState)
    (hd : DursNonneg env) :
    ∃ evs, (jina_get env v s).2.events = s.events ++ evs
      ∧ (∀ e ∈ evs, s.clock ≤ e.time) ∧ s.clock ≤ (jina_get env v s).2.clock := by
  refine ⟨[⟨s.clock, .jinaGet v⟩], rfl, ?_, ?_⟩
  · intro e he
    rw [List.mem_singleton] at he
    subst he
    exact le_refl _
  · show s.clock ≤ s.clock + env.jinaDur v
    have := (hd v).1
    omega

/-- An archive availability call appends one event stamped at the current
clock and moves the clock forward. -/
theorem wayback_get_trace (env : FetchEnv) (v : Url) (s : NetState)
    (hd : DursNonneg env) :
    ∃ evs, (wayback_get env v s).2.events = s.events ++ evs
      ∧ (∀ e ∈ evs, s.clock ≤ e.time) ∧ s.clock ≤ (wayback_get env v s).2.clock := by
  refine ⟨[⟨s.clock, .waybackGet v⟩], rfl, ?_, ?_⟩
  · intro e he
    rw [List.mem_singleton] at he
    subst he
    exact le_refl _
  · show s.clock ≤ s.clock + env.waybackDur v
    have := (hd v).2
    omega

/-- Trace shape of `fetch_via_jina`: only appends events, all stamped at or
after the entry clock, which never goes backwards. -/
theorem fetch_via_jina_trace (env : FetchEnv) (v : Url) (s : NetState)
    (hd : DursNonneg env) :
    ∃ evs, (fetch_via_jina env v s).2.events = s.events ++ evs
      ∧ (∀ e ∈ evs, s.clock ≤ e.time)
      ∧ s.clock ≤ (fetch_via_jina env v s).2.clock := by
  unfold fetch_via_jina
  cases hv : validate_url env v with
  | error e => exact ⟨[], by simp, by simp, le_refl _⟩
  | ok w =>
    obtain ⟨evs, he, ht, hc⟩ := jina_get_trace env v s hd
    cases hj : jina_get env v s with
    | mk res s1 =>
      rw [hj] at he hc
      cases res with
      | error e => exact ⟨evs, he, ht, hc⟩
      | ok content => exact ⟨evs, he, ht, hc⟩

/-- Trace shape of `fetch_via_wayback` (including the nested snapshot
fetch). -/
theorem fetch_via_wayback_trace (env : FetchEnv) (u : Url) (s : NetState)
    (hd : DursNonneg env) :
    ∃ evs, (fetch_via_wayback env u s).2.events = s.events ++ evs
      ∧ (∀ e ∈ evs, s.clock ≤ e.time)
      ∧ s.clock ≤ (fetch_via_wayback env u s).2.clock := by
  obtain ⟨evs1, he1, ht1, hc1⟩ := wayback_get_trace env u s hd
  cases hw : wayback_get env u s with
  | mk res s1 =>
    rw [hw] at he1 hc1
    cases res with
    | error e =>
      have heq : fetch_via_wayback env u s = (.error e, s1) := by
        simp only [fetch_via_wayback, hw]
      rw [heq]
      exact ⟨evs1, he1, ht1, hc1⟩
    | ok data =>
      cases hcl : data.closest with
      | none =>
        have heq : fetch_via_wayback env u s =
            (.error (.valueError ("No Wayback snapshot available for: " ++ u.raw)), s1) := by
          simp only [fetch_via_wayback, hw, hcl]
        rw [heq]
        exact ⟨evs1, he1, ht1, hc1⟩
      | some c =>
        by_cases hst : c.status = some "200"
        · cases hurl : c.url with
          | none =>
            have heq : fetch_via_wayback env u s = (.error (.keyError "url"), s1) := by
              simp only [fetch_via_wayback, hw, hcl, hst, hurl]
              simp
            rw [heq]
            exact ⟨evs1, he1, ht1, hc1⟩
          | some v =>
            have heq : fetch_via_wayback env u s = fetch_via_jina env v s1 := by
              simp only [fetch_via_wayback, hw, hcl, hst, hurl]
              simp
            obtain ⟨evs2, he2, ht2, hc2⟩ := fetch_via_jina_trace env v s1 hd
            rw [heq]
            refine ⟨evs1 ++ evs2, ?_, ?_, le_trans hc1 hc2⟩
            · rw [he2, he1, List.append_assoc]
            · intro e he
              rcases List.mem_append.mp he with h | h
              · exact ht1 e h
              · exact le_trans hc1 (ht2 e h)
        · have heq : fetch_via_wayback env u s =
              (.error (.valueError ("No Wayback snapshot available for: " ++ u.raw)), s1) := by
            simp only [fetch_via_wayback, hw, hcl]
            rw [if_pos hst]
          rw [heq]
          exact ⟨evs1, he1, ht1, hc1⟩

/-- Trace shape of `fetch_url`: events only appended, stamped at or after
the entry clock; the clock never goes backwards. -/
theorem fetch_url_trace (env : FetchEnv) (u : Url) (s : NetState)
    (hd : DursNonneg env) :
    ∃ evs, (fetch_url env u s).2.events = s.events ++ evs
      ∧ (∀ e ∈ evs, s.clock ≤ e.time)
      ∧ s.clock ≤ (fetch_url env u s).2.clock := by
  obtain ⟨evs1, he1, ht1, hc1⟩ := fetch_via_jina_trace env u s hd
  cases hj : fetch_via_jina env u s with
  | mk res s1 =>
    rw [hj] at he1 hc1
    cases res with
    | ok v =>
      obtain ⟨content, title⟩ := v
      have heq : fetch_url env u s = (.ok (content, title, "jina"), s1) := by
        simp only [fetch_url, hj]
      rw [heq]
      exact ⟨evs1, he1, ht1, hc1⟩
    | error e =>
      have hfall : ∀ msg : String,
          (match fetch_via_wayback env u s1 with
            | (.ok (content, title), s2) => ((.ok (content, title, "wayback") :
                Except PyErr (String × String × String)), s2)
            | (.error _, s2) => (.error (.runtimeError msg), s2)) = fetch_url env u s →
          ∃ evs, (fetch_url env u s).2.events = s.events ++ evs
            ∧ (∀ e ∈ evs, s.clock ≤ e.time)
            ∧ s.clock ≤ (fetch_url env u s).2.clock := by
        intro msg hmatch
        obtain ⟨evs2, he2, ht2, hc2⟩ := fetch_via_wayback_trace env u s1 hd
        cases hwb : fetch_via_wayback env u s1 with
        | mk res2 s2 =>
          rw [hwb] at he2 hc2
          rw [hwb] at hmatch
          have hcomp : ∃ evs, s2.events = s.events ++ evs
              ∧ (∀ e ∈ evs, s.clock ≤ e.time) ∧ s.clock ≤ s2.clock := by
            refine ⟨evs1 ++ evs2, ?_, ?_, le_trans hc1 hc2⟩
            · rw [he2, he1, List.append_assoc]
            · intro e he
              rcases List.mem_append.mp he with h | h
              · exact ht1 e h
              · exact le_trans hc1 (ht2 e h)
          cases res2 with
          | ok v2 =>
            obtain ⟨c2, t2⟩ := v2
            rw [← hmatch]
            exact hcomp
          | error e2 =>
            rw [← hmatch]
            exact hcomp
      cases e with
      | valueError m =>
        have heq : fetch_url env u s = (.error (.valueError m), s1) := by
          simp only [fetch_url, hj]
        rw [heq]
        exact ⟨evs1, he1, ht1, hc1⟩
      | httpError m =>
        exact hfall ("All fetch methods failed for " ++ u.raw) (by simp only [fetch_url, hj])
      | runtimeError m =>
        exact hfall ("All fetch methods failed for " ++ u.raw) (by simp only [fetch_url, hj])
      | keyError k =>
        exact hfall ("All fetch methods failed for " ++ u.raw) (by simp only [fetch_url, hj])

/-- With a previous fetch recorded, the rate limiter leaves the clock no
earlier than `last_fetch_time + fetch_delay`. -/
theorem rate_limit_clock_ge (cfg : Config) (rs : RunState)
    (hpos : 0 < rs.last_fetch_time) :
    rs.last_fetch_time + cfg.fetch_delay ≤ (rate_limit cfg rs).clock := by
  unfold rate_limit
  by_cases h : (rs.clock - rs.last_fetch_time < cfg.fetch_delay ∧ rs.last_fetch_time > 0)
  · rw [if_pos h]
    show _ ≤ rs.clock + (cfg.fetch_delay - (rs.clock - rs.last_fetch_time))
    omega
  · rw [if_neg h]
    show _ ≤ rs.clock
    have h2 : ¬ (rs.clock - rs.last_fetch_time < cfg.fetch_delay) :=
      fun hlt => h ⟨hlt, hpos⟩
    omega

/-- The rate limiter appends at most a sleep event (never a network
event). -/
theorem rate_limit_events (cfg : Config) (rs : RunState) :
    ∃ evs, (rate_limit cfg rs).events = rs.events ++ evs
      ∧ ∀ e ∈ evs, e.isNet = false := by
  unfold rate_limit
  by_cases h : (rs.clock - rs.last_fetch_time < cfg.fetch_delay ∧ rs.last_fetch_time > 0)
  · rw [if_pos h]
    refine ⟨[⟨rs.clock, .sleep (cfg.fetch_delay - (rs.clock - rs.last_fetch_time))⟩],
      rfl, ?_⟩
    intro e he
    rw [List.mem_singleton] at he
    subst he
    rfl
  · rw [if_neg h]
    exact ⟨[], by simp, by simp⟩

/-- C7 amended: (i) a fresh cache hit returns the run state untouched — no
network access, no sleep, no clock movement; (ii) on the fetch path, once a
fetch has succeeded before (`last_fetch_time > 0`), every network request
of the step starts at or after `last_fetch_time + fetch_delay`; (iii) the
limiter timestamp is set to the completion clock on success and (iv) kept
unchanged on failure — so the enforced interval is measured from the last
*successful* fetch, not from the last network call. -/
theorem rate_limit_amended (env : FetchEnv) (cfg : Config) (u : Url)
    (rs : RunState) (hd : DursNonneg env) :
    (∀ rec, load_cache env.sha256 rs.store (url_cache_key env u.raw) = .ok (some rec) →
      is_expired env rec cfg.ttl_days = false →
      ∀ out rs2, process_item env cfg u rs = .ok (out, rs2) → rs2 = rs)
  ∧ (0 < rs.last_fetch_time →
      ∃ evs, (process_fetch env cfg u rs).2.events = rs.events ++ evs
        ∧ ∀ e ∈ evs, e.isNet = true → rs.last_fetch_time + cfg.fetch_delay ≤ e.time)
  ∧ (∀ r rs2, process_fetch env cfg u rs = (.inl r, rs2) →
      rs2.last_fetch_time = rs2.clock)
  ∧ (∀ f rs2, process_fetch env cfg u rs = (.inr f, rs2) →
      rs2.last_fetch_time = rs.last_fetch_time) := by
  refine ⟨?_, ?_, ?_, ?_⟩
  · intro rec hload hexp out rs2 hitem
    unfold process_item at hitem
    simp only [hload, hexp, Bool.false_eq_true, if_false] at hitem
    cases hc : rec.content with
    | none =>
      simp only [hc] at hitem
      cases hitem
    | some c =>
      simp only [hc] at hitem
      cases hfa : rec.fetched_at with
      | none =>
        simp only [hfa] at hitem
        cases hitem
      | some fa =>
        simp only [hfa] at hitem
        injection hitem with h1
        injection h1 with h2 h3
        exact h3.symm
  · intro hpos
    obtain ⟨evs0, he0, hnet0⟩ := rate_limit_events cfg rs
    obtain ⟨evs1, he1, ht1, hc1⟩ := fetch_url_trace env u (rate_limit cfg rs) hd
    have hclock := rate_limit_clock_ge cfg rs hpos
    cases hfu : fetch_url env u (rate_limit cfg rs) with
    | mk res s2 =>
      rw [hfu] at he1 hc1
      have hev : (process_fetch env cfg u rs).2.events = s2.events := by
        unfold process_fetch
        rw [hfu]
        cases res with
        | ok v =>
          obtain ⟨c0, t, m⟩ := v
          rfl
        | error e => rfl
      refine ⟨evs0 ++ evs1, ?_, ?_⟩
      · rw [hev, he1, he0, List.append_assoc]
      · intro e he hn
        rcases List.mem_append.mp he with h | h
        · rw [hnet0 e h] at hn
          cases hn
        · exact le_trans hclock (ht1 e h)
  · intro r rs2 hpf
    unfold process_fetch at hpf
    cases hfu : fetch_url env u (rate_limit cfg rs) with
    | mk res s2 =>
      rw [hfu] at hpf
      cases res with
      | ok v =>
        obtain ⟨c0, t, m⟩ := v
        injection hpf with h1 h2
        rw [← h2]
      | error e =>
        injection hpf with h1 h2
        cases h1
  · intro f rs2 hpf
    unfold process_fetch at hpf
    cases hfu : fetch_url env u (rate_limit cfg rs) with
    | mk res s2 =>
      rw [hfu] at hpf
      cases res with
      | ok v =>
        obtain ⟨c0, t, m⟩ := v
        injection hpf with h1 h2
        cases h1
      | error e =>
        injection hpf with h1 h2
        rw [← h2]

/-- Witness for the amended C7: a fresh cache hit leaves the run state
untouched, and with a previous fetch at time 50 and a 10-unit interval the
fetch path starts its network requests at or after time 60. -/
theorem rate_limit_amended_witness :
    (∃ out, process_item envW cfgW urlA rsHit = .ok (out, rsHit))
  ∧ (∃ evs, (process_fetch envW cfgW urlB rsB).2.events = rsB.events ++ evs
      ∧ ∀ e ∈ evs, e.isNet = true →
          rsB.last_fetch_time + cfgW.fetch_delay ≤ e.time) := by
  obtain ⟨hi, -, -, -⟩ := rate_limit_amended envW cfgW urlA rsHit envW_durs
  obtain ⟨-, hii, -, -⟩ := rate_limit_amended envW cfgW urlB rsB envW_durs
  constructor
  · obtain ⟨out, rs2, hrun⟩ :
        ∃ out rs2, process_item envW cfgW urlA rsHit = .ok (out, rs2) := ⟨_, _, rfl⟩
    have heq := hi recHit (by rfl) (by decide) out rs2 hrun
    rw [heq] at hrun
    exact ⟨out, hrun⟩
  · exact hii (by decide)

/-- C7 counterexample: under `envW` with a 10-unit interval, the batch
`[urlA, urlB]` issues three network requests at times 100, 101, 102 (the
reader and archive attempts for `urlA`, both failing, then the reader
request for `urlB`): consecutive network fetches only one unit apart. The
orchestrator enforced no delay, because failed attempts never update
`last_fetch_time` — the claim that a minimum interval separates any network
fetch from the previous one, whatever its outcome, is false on this run. -/
theorem rate_limit_interval_counterexample :
    (process_urls envW cfgW [urlA, urlB] emptyStore 100).toOption.map
      (fun t => (netTimes t.2.2.events,
                 enforcedMinInterval cfgW.fetch_delay t.2.2.events,
                 t.2.1.map FetchFailure.url, t.1.map FetchResult.url)) =
      some ([100, 101, 102], false, [urlA.raw], [urlB.raw]) := by
  decide

end ResearchWorkflow










